import Mathlib

/-!
Verification of the real-time assistant core of this repository.

The development shallowly embeds the relevant JavaScript source into Lean:
pure helper functions become Lean functions, the stateful session object
becomes explicit state passing, byte buffers become lists of naturals, and
the fallible backend call is abstracted as an explicit outcome parameter.
Each section names the source function it embeds.
-/

/- ======================================================================
   Section 1: PCM Buffer Framer
   Embeds the `systemAudioProc.stdout.on('data', ...)` handler of
   `startMacOSAudioCapture` in src/utils/gemini.js: bytes are concatenated
   onto an accumulation buffer, full frames of CHUNK_SIZE bytes are emitted
   from the front while enough bytes are available, and afterwards the
   buffer is trimmed to its last `maxBufferSize` bytes if it exceeds that
   ceiling.
   ====================================================================== -/

/-- `const SAMPLE_RATE = 24000` in `startMacOSAudioCapture`. -/
def SAMPLE_RATE : Nat := 24000

/-- `const BYTES_PER_SAMPLE = 2`. -/
def BYTES_PER_SAMPLE : Nat := 2

/-- `const CHANNELS = 2`. -/
def CHANNELS : Nat := 2

/-- `const CHUNK_SIZE = SAMPLE_RATE * BYTES_PER_SAMPLE * CHANNELS * CHUNK_DURATION`
with `CHUNK_DURATION = 0.1`; the multiplication by 0.1 is rendered as
division by 10 (24000 * 2 * 2 / 10 = 9600, exact). -/
def CHUNK_SIZE : Nat := SAMPLE_RATE * BYTES_PER_SAMPLE * CHANNELS / 10

/-- `const maxBufferSize = SAMPLE_RATE * BYTES_PER_SAMPLE * 1` (one second
of mono audio, 48000 bytes). -/
def maxBufferSize : Nat := SAMPLE_RATE * BYTES_PER_SAMPLE * 1

theorem CHUNK_SIZE_eq : CHUNK_SIZE = 9600 := by decide

theorem maxBufferSize_eq : maxBufferSize = 48000 := by decide

/-- The `while (audioBuffer.length >= CHUNK_SIZE)` loop: repeatedly slice a
frame of `CHUNK_SIZE` bytes off the front of the buffer.  Returns the list
of emitted frames (in emission order) and the residual buffer. -/
def emitFrames (buf : List Nat) : List (List Nat) × List Nat :=
  if _h : CHUNK_SIZE ≤ buf.length then
    let out := emitFrames (buf.drop CHUNK_SIZE)
    (buf.take CHUNK_SIZE :: out.1, out.2)
  else
    ([], buf)
termination_by buf.length
decreasing_by
  simp only [List.length_drop]
  have hpos : 0 < CHUNK_SIZE := by decide
  omega

theorem emitFrames_of_le (buf : List Nat) (h : CHUNK_SIZE ≤ buf.length) :
    emitFrames buf =
      (buf.take CHUNK_SIZE :: (emitFrames (buf.drop CHUNK_SIZE)).1,
        (emitFrames (buf.drop CHUNK_SIZE)).2) := by
  rw [emitFrames]
  simp only [h, dite_true]

theorem emitFrames_of_lt (buf : List Nat) (h : buf.length < CHUNK_SIZE) :
    emitFrames buf = ([], buf) := by
  have hn : ¬ CHUNK_SIZE ≤ buf.length := by omega
  rw [emitFrames]
  simp only [hn, dite_false]

/-- One invocation of the `data` handler: `audioBuffer = Buffer.concat(...)`,
the frame-emission loop, then the overflow trim
`if (audioBuffer.length > maxBufferSize) audioBuffer = audioBuffer.slice(-maxBufferSize)`.
The boolean records whether the trim branch was taken. -/
def handleData (buf data : List Nat) : (List (List Nat) × List Nat) × Bool :=
  let acc := buf ++ data
  let out := emitFrames acc
  if maxBufferSize < out.2.length then
    ((out.1, out.2.drop (out.2.length - maxBufferSize)), true)
  else
    (out, false)

/-- One step of feeding the handler: keep emitted frames, carry the residual. -/
def feedStep (acc : List (List Nat) × List Nat) (c : List Nat) :
    List (List Nat) × List Nat :=
  let out := handleData acc.2 c
  (acc.1 ++ out.1.1, out.1.2)

/-- Feeding a sequence of incoming chunks to the handler, starting from an
empty accumulation buffer; collects all emitted frames and the final
residual buffer. -/
def feedChunks (chunks : List (List Nat)) : List (List Nat) × List Nat :=
  chunks.foldl feedStep ([], [])

theorem emitFrames_spec (buf : List Nat) :
    (emitFrames buf).2.length < CHUNK_SIZE ∧
    (emitFrames buf).1.flatten ++ (emitFrames buf).2 = buf ∧
    ∀ f ∈ (emitFrames buf).1, f.length = CHUNK_SIZE := by
  induction buf using emitFrames.induct with
  | case1 buf h ih =>
    have ih2 : (emitFrames (buf.drop CHUNK_SIZE)).2.length < CHUNK_SIZE ∧
        (emitFrames (buf.drop CHUNK_SIZE)).1.flatten ++ (emitFrames (buf.drop CHUNK_SIZE)).2
          = buf.drop CHUNK_SIZE ∧
        ∀ f ∈ (emitFrames (buf.drop CHUNK_SIZE)).1, f.length = CHUNK_SIZE := ih
    rw [emitFrames_of_le buf h]
    refine ⟨ih2.1, ?_, ?_⟩
    · simp only [List.flatten_cons]
      rw [List.append_assoc, ih2.2.1]
      exact List.take_append_drop CHUNK_SIZE buf
    · intro f hf
      rcases List.mem_cons.mp hf with hf | hf
      · subst hf
        simp only [List.length_take]
        omega
      · exact ih2.2.2 f hf
  | case2 buf h =>
    have hlt : buf.length < CHUNK_SIZE := by omega
    rw [emitFrames_of_lt buf hlt]
    exact ⟨hlt, by simp, by simp⟩

/-- Splitting the input at a point decomposes frame emission: first emit
from the left part, then continue with its residue prepended to the right
part. -/
theorem emitFrames_append (b1 b2 : List Nat) :
    emitFrames (b1 ++ b2) =
      ((emitFrames b1).1 ++ (emitFrames ((emitFrames b1).2 ++ b2)).1,
        (emitFrames ((emitFrames b1).2 ++ b2)).2) := by
  induction b1 using emitFrames.induct with
  | case1 b1 h ih =>
    have ih2 : emitFrames (b1.drop CHUNK_SIZE ++ b2) =
        ((emitFrames (b1.drop CHUNK_SIZE)).1 ++
            (emitFrames ((emitFrames (b1.drop CHUNK_SIZE)).2 ++ b2)).1,
          (emitFrames ((emitFrames (b1.drop CHUNK_SIZE)).2 ++ b2)).2) := ih
    have hlen : CHUNK_SIZE ≤ (b1 ++ b2).length := by
      simp only [List.length_append]
      omega
    rw [emitFrames_of_le (b1 ++ b2) hlen, emitFrames_of_le b1 h]
    simp only [List.take_append_of_le_length h, List.drop_append_of_le_length h]
    rw [ih2]
    simp
  | case2 b1 h =>
    have hlt : b1.length < CHUNK_SIZE := by omega
    rw [emitFrames_of_lt b1 hlt]
    simp

/-- The residual left by the emission loop is below the frame size, which is
below the trim ceiling, so `handleData` never takes the trim branch. -/
theorem handleData_eq (buf data : List Nat) :
    handleData buf data = (emitFrames (buf ++ data), false) := by
  unfold handleData
  have h := (emitFrames_spec (buf ++ data)).1
  have hle : ¬ maxBufferSize < (emitFrames (buf ++ data)).2.length := by
    rw [maxBufferSize_eq]
    rw [CHUNK_SIZE_eq] at h
    omega
  simp only [hle, if_false]

theorem feedStep_eq (frames : List (List Nat)) (rest c : List Nat) :
    feedStep (frames, rest) c =
      (frames ++ (emitFrames (rest ++ c)).1, (emitFrames (rest ++ c)).2) := by
  unfold feedStep
  rw [handleData_eq]

theorem feedChunks_aux (chunks : List (List Nat)) :
    ∀ frames0 rest0, rest0.length < CHUNK_SIZE →
      chunks.foldl feedStep (frames0, rest0)
      = (frames0 ++ (emitFrames (rest0 ++ chunks.flatten)).1,
          (emitFrames (rest0 ++ chunks.flatten)).2) := by
  induction chunks with
  | nil =>
    intro frames0 rest0 hrest
    rw [List.foldl_nil, List.flatten_nil, List.append_nil, emitFrames_of_lt rest0 hrest]
    simp
  | cons c cs ih =>
    intro frames0 rest0 hrest
    rw [List.foldl_cons, feedStep_eq]
    rw [ih _ _ (emitFrames_spec (rest0 ++ c)).1]
    have happ := emitFrames_append (rest0 ++ c) cs.flatten
    rw [List.flatten_cons, ← List.append_assoc, happ, List.append_assoc]

/--
C5: feeding a byte sequence to the PCM framer in arbitrarily chosen chunks
produces exactly the same emitted frames (byte-identical, same order) and
the same residual as feeding all the bytes in one single call, with the
frame size 24000 Hz * 2 bytes * 2 channels * 0.1 s = 9600 bytes.
-/
theorem framer_chunking_invariance (chunks : List (List Nat)) :
    feedChunks chunks = feedChunks [chunks.flatten] := by
  unfold feedChunks
  have h0 : ([] : List Nat).length < CHUNK_SIZE := by decide
  rw [feedChunks_aux chunks [] [] h0, feedChunks_aux [chunks.flatten] [] [] h0]
  simp

/--
C10: after the audio data handler finishes processing any incoming chunk,
the residual accumulation buffer holds strictly fewer bytes than one frame
(9600 bytes), hence strictly fewer than the 48000-byte safety ceiling, so
the overflow-trim branch is never taken and the emitted frames together
with the residual account for every byte received.
-/
theorem framer_no_byte_lost (buf data : List Nat) :
    (handleData buf data).1.2.length < 9600 ∧
    (handleData buf data).2 = false ∧
    (handleData buf data).1.1.flatten ++ (handleData buf data).1.2 = buf ++ data ∧
    ∀ f ∈ (handleData buf data).1.1, f.length = 9600 := by
  rw [handleData_eq]
  have h := emitFrames_spec (buf ++ data)
  rw [CHUNK_SIZE_eq] at h
  exact ⟨h.1, rfl, h.2.1, h.2.2⟩

/- ======================================================================
   JS string helpers shared by the embeddings below.
   ====================================================================== -/

/-- JS whitespace (the ASCII part of the `\\s` class and of the characters
removed by `String.prototype.trim`): space, tab, line feed, vertical tab,
form feed, carriage return. -/
def isJsWs (c : Char) : Bool :=
  c = ' ' || c = '\t' || c = '\n' || c = '\x0b' || c = '\x0c' || c = '\r'

/-- `String.prototype.trim`: remove whitespace from both ends. -/
def jsTrim (s : String) : String :=
  (((s.toList.dropWhile isJsWs).reverse.dropWhile isJsWs).reverse).asString

/-- ASCII lower-casing, as applied by `toLowerCase()` to the ASCII range. -/
def asciiLower (c : Char) : Char :=
  if 'A' ≤ c ∧ c ≤ 'Z' then Char.ofNat (c.toNat + 32) else c

/- ======================================================================
   Section 2: Gemini session object
   Embeds the `session` object literal created in `initializeGeminiSession`
   in src/utils/gemini.js: its fields, the `sendRealtimeInput` method and
   the `close` method.  The streaming backend call
   (`client.models.generateContentStream` plus the chunk iteration) is
   abstracted as an explicit `BackendOutcome` parameter: `ok resp` stands
   for a run in which a response text `resp` was accumulated (by the main
   stream loop or by the stream-error fallback), `err msg` for a run in
   which an exception with message `msg` reached the outer catch.
   ====================================================================== -/

/-- A Gemini content part: either `{ text }` or `{ inlineData: { mimeType, data } }`. -/
inductive MsgPart where
  | text (s : String)
  | inlineData (mimeType : String) (data : String)
deriving DecidableEq, Repr

/-- Role string of a history entry: `'user'` or `'model'`. -/
inductive Role where
  | user
  | model
deriving DecidableEq, Repr

/-- One element of `conversationHistory`: `{ role, parts }`. -/
structure Entry where
  role : Role
  parts : List MsgPart
deriving DecidableEq, Repr

/-- `input.media`: `{ data, mimeType }`. -/
structure Media where
  mimeType : String
  data : String
deriving DecidableEq, Repr

/-- The `input` argument of `sendRealtimeInput`: `{ text?, media? }`.
(An audio-only input, as produced by `sendAudioToGemini`, has both fields
absent.) -/
structure Input where
  text : Option String
  media : Option Media
deriving DecidableEq, Repr

/-- Module-level context read by `sendRealtimeInput`: `currentMode` and
`storedLanguageName` are module variables of gemini.js; `examHint` stands
for the text returned by `getExamMessageHint()` (defined in
src/utils/prompts.js, which is outside the provided sources, so it is a
parameter here). -/
structure Config where
  currentMode : String
  storedLanguageName : String
  examHint : String
deriving DecidableEq, Repr

/-- The mutable state of the session object: `isClosed` and
`conversationHistory` (the other fields — model, client, systemPrompt,
tools — are never written after creation). -/
structure SessionState where
  isClosed : Bool
  conversationHistory : List Entry
deriving DecidableEq, Repr

/-- Outcome of the abstracted backend streaming call. -/
inductive BackendOutcome where
  | ok (responseText : String)
  | err (message : String)
deriving DecidableEq, Repr

/-- Result of one `sendRealtimeInput` call: the returned value (`some` for
a returned response text, `none` for a `return null` / bare `return`), the
session state afterwards, and whether a backend request was issued. -/
structure SendOutcome where
  result : Option String
  state : SessionState
  backendCalled : Bool
deriving DecidableEq, Repr

/-- JS truthiness of `input.text`: an absent or empty string is falsy. -/
def truthyText (t : Option String) : Option String :=
  match t with
  | none => none
  | some s => if s = "" then none else some s

/-- The language reminder appended to the final text part when the selected
language is not English. -/
def languageReminder (lang : String) : String :=
  "\n\nCRITICAL: You MUST respond entirely in " ++ lang ++ ". Do NOT respond in English."

/-- The screenshot-only language reminder pushed as its own part. -/
def screenshotLanguageReminder (lang : String) : String :=
  "CRITICAL: You MUST respond entirely in " ++ lang ++ ". Do NOT respond in English."

/-- Building the `parts` array for the current message, as in
`sendRealtimeInput` (the `if (input.text) ... else if (input.media &&
currentMode === 'coding') ...` block followed by the `if (input.media)`
block). -/
def buildParts (cfg : Config) (inp : Input) : List MsgPart :=
  let t? := truthyText inp.text
  let p1 : List MsgPart :=
    match t? with
    | some t =>
      let t1 := if cfg.currentMode = "coding" then t ++ cfg.examHint else t
      let t2 := if cfg.storedLanguageName ≠ "English"
        then t1 ++ languageReminder cfg.storedLanguageName else t1
      [MsgPart.text t2]
    | none =>
      match inp.media with
      | some _ =>
        if cfg.currentMode = "coding" then
          let h1 := cfg.examHint
          let h2 := if cfg.storedLanguageName ≠ "English"
            then h1 ++ languageReminder cfg.storedLanguageName else h1
          [MsgPart.text h2]
        else []
      | none => []
  let p2 : List MsgPart :=
    match inp.media with
    | some m =>
      MsgPart.inlineData m.mimeType m.data ::
        (if t?.isNone ∧ cfg.currentMode ≠ "coding" ∧ cfg.storedLanguageName ≠ "English"
          then [MsgPart.text (screenshotLanguageReminder cfg.storedLanguageName)]
          else [])
    | none => []
  p1 ++ p2

/-- Does a part carry inline image data (`p.inlineData` truthy)? -/
def isImagePart (p : MsgPart) : Bool :=
  match p with
  | MsgPart.inlineData _ _ => true
  | MsgPart.text _ => false

/-- The placeholder substituted for stripped image parts. -/
def screenshotPlaceholder : String := "[screenshot]"

/-- `p => p.inlineData ? { text: '[screenshot]' } : p`. -/
def stripImagePart (p : MsgPart) : MsgPart :=
  if isImagePart p then MsgPart.text screenshotPlaceholder else p

/-- The history cap:
`if (this.conversationHistory.length > 16) this.conversationHistory = this.conversationHistory.slice(-16)`. -/
def capHistory (h : List Entry) : List Entry :=
  if 16 < h.length then h.drop (h.length - 16) else h

/-- The image-stripping loop body, walking the history from newest to
oldest (the argument is the reversed history): count user entries whose
parts contain inline image data; once the count exceeds 3, replace the
image parts of the entry by the placeholder. -/
def stripGo : Nat → List Entry → List Entry
  | _, [] => []
  | count, e :: rest =>
    if e.role = Role.user ∧ e.parts.any isImagePart then
      let count1 := count + 1
      (if 3 < count1 then { e with parts := e.parts.map stripImagePart } else e)
        :: stripGo count1 rest
    else
      e :: stripGo count rest

/-- The `for (let i = history.length - 1; i >= 0; i--)` image-stripping
loop of `sendRealtimeInput`: keep inline image data only in the 3 most
recent image-bearing user turns. -/
def stripOldImages (h : List Entry) : List Entry :=
  (stripGo 0 h.reverse).reverse

/-- The complete history update performed on a successful response:
push the user turn and the model turn, cap at 16 entries, then strip old
images. -/
def appendTurn (h : List Entry) (userParts : List MsgPart) (responseText : String) :
    List Entry :=
  stripOldImages (capHistory
    (h ++ [{ role := Role.user, parts := userParts },
           { role := Role.model, parts := [MsgPart.text responseText] }]))

/-- `sendRealtimeInput(input)` of the session object, with the backend
call abstracted by `backend`.  Mirrors the source structure:
closed-session guard; the `if (input.media || input.text)` guard (with JS
truthiness for the text); on a backend exception the outer catch returns
`null` in every branch; on an accumulated response text the history is
updated only when the text has non-blank content. -/
def sendRealtimeInput (cfg : Config) (s : SessionState) (inp : Input)
    (backend : BackendOutcome) : SendOutcome :=
  if s.isClosed then
    { result := none, state := s, backendCalled := false }
  else if inp.media.isNone ∧ (truthyText inp.text).isNone then
    { result := none, state := s, backendCalled := false }
  else
    match backend with
    | BackendOutcome.err _ =>
      { result := none, state := s, backendCalled := true }
    | BackendOutcome.ok resp =>
      if jsTrim resp = "" then
        { result := none, state := s, backendCalled := true }
      else
        { result := some resp,
          state := { s with
            conversationHistory :=
              appendTurn s.conversationHistory (buildParts cfg inp) resp },
          backendCalled := true }

/-- `close()` of the session object: `this.isClosed = true`. -/
def closeSession (s : SessionState) : SessionState :=
  { s with isClosed := true }

/-- The session created by `initializeGeminiSession`: open, with empty
history. -/
def initialSession : SessionState :=
  { isClosed := false, conversationHistory := [] }

/-- Running a sequence of `sendRealtimeInput` calls, each with its input
and its backend outcome, threading the session state. -/
def runSends (cfg : Config) (s0 : SessionState)
    (calls : List (Input × BackendOutcome)) : SessionState :=
  calls.foldl (fun s c => (sendRealtimeInput cfg s c.1 c.2).state) s0

/-- The text of an `ok` backend outcome (and `""` for an error). -/
def okText : BackendOutcome → String
  | BackendOutcome.ok r => r
  | BackendOutcome.err _ => ""

/-- The two history entries contributed by one successful call. -/
def entriesOf (cfg : Config) (c : Input × BackendOutcome) : List Entry :=
  [{ role := Role.user, parts := buildParts cfg c.1 },
   { role := Role.model, parts := [MsgPart.text (okText c.2)] }]

/-- The last `n` elements of a list (JS `slice(-n)` for a list longer than
`n`, the whole list otherwise). -/
def lastN (n : Nat) (l : List α) : List α :=
  l.drop (l.length - n)

/-- A call that the session fully accepts and appends: open text-only
input, backend succeeded with a non-blank response. -/
def textOnlyOk (c : Input × BackendOutcome) : Bool :=
  c.1.media.isNone && (truthyText c.1.text).isSome &&
    (match c.2 with
     | BackendOutcome.ok r => decide (¬ jsTrim r = "")
     | BackendOutcome.err _ => false)

theorem mapStrip_any_eq_false (ps : List MsgPart) :
    (ps.map stripImagePart).any isImagePart = false := by
  induction ps with
  | nil => rfl
  | cons p rest ih =>
    simp only [List.map_cons, List.any_cons, ih, Bool.or_false]
    unfold stripImagePart
    cases p with
    | text s => rfl
    | inlineData m d => rfl

theorem stripGo_of_no_images (count : Nat) (h : List Entry)
    (hh : ∀ e ∈ h, e.parts.any isImagePart = false) : stripGo count h = h := by
  induction h generalizing count with
  | nil => rfl
  | cons e rest ih =>
    have he : e.parts.any isImagePart = false := hh e (List.mem_cons_self e rest)
    have hrest : ∀ x ∈ rest, x.parts.any isImagePart = false :=
      fun x hx => hh x (List.mem_cons_of_mem e hx)
    unfold stripGo
    simp only [he, Bool.false_eq_true, and_false, if_false]
    rw [ih count hrest]

theorem stripOldImages_of_no_images (h : List Entry)
    (hh : ∀ e ∈ h, e.parts.any isImagePart = false) : stripOldImages h = h := by
  unfold stripOldImages
  rw [stripGo_of_no_images 0 h.reverse (fun e he => hh e (List.mem_reverse.mp he))]
  exact List.reverse_reverse h

theorem stripGo_length (count : Nat) (h : List Entry) :
    (stripGo count h).length = h.length := by
  induction h generalizing count with
  | nil => rfl
  | cons e rest ih =>
    unfold stripGo
    by_cases hc : e.role = Role.user ∧ e.parts.any isImagePart
    · rw [if_pos hc]
      simp only [List.length_cons, ih]
    · rw [if_neg hc]
      simp only [List.length_cons, ih]

theorem stripOldImages_length (h : List Entry) :
    (stripOldImages h).length = h.length := by
  unfold stripOldImages
  rw [List.length_reverse, stripGo_length, List.length_reverse]

theorem capHistory_length (h : List Entry) :
    (capHistory h).length = min h.length 16 := by
  unfold capHistory
  by_cases hc : 16 < h.length
  · simp only [hc, if_true, List.length_drop]
    omega
  · simp only [hc, if_false]
    omega

theorem capHistory_of_le (h : List Entry) (hle : h.length ≤ 16) :
    capHistory h = h := by
  unfold capHistory
  have : ¬ 16 < h.length := by omega
  simp only [this, if_false]

theorem appendTurn_length (h : List Entry) (u : List MsgPart) (r : String) :
    (appendTurn h u r).length = min (h.length + 2) 16 := by
  unfold appendTurn
  rw [stripOldImages_length, capHistory_length]
  simp

/-- When the input carries no media, the built parts contain no inline
image data. -/
theorem buildParts_no_media_no_image (cfg : Config) (inp : Input)
    (hm : inp.media = none) : (buildParts cfg inp).any isImagePart = false := by
  unfold buildParts
  rw [hm]
  cases ht : truthyText inp.text with
  | none => simp [isImagePart]
  | some t =>
    by_cases hc : cfg.currentMode = "coding" <;>
      by_cases hl : cfg.storedLanguageName ≠ "English" <;>
        simp [hc, hl, isImagePart]

theorem send_isClosed (cfg : Config) (s : SessionState) (inp : Input)
    (b : BackendOutcome) :
    (sendRealtimeInput cfg s inp b).state.isClosed = s.isClosed := by
  cases b with
  | err m =>
    unfold sendRealtimeInput
    split
    · rfl
    · split
      · rfl
      · rfl
  | ok r =>
    unfold sendRealtimeInput
    split
    · rfl
    · split
      · rfl
      · split
        · rfl
        · split
          · rfl
          · rfl

theorem send_ok_step (cfg : Config) (s : SessionState) (inp : Input) (r : String)
    (hcl : s.isClosed = false)
    (hguard : ¬ (inp.media.isNone ∧ (truthyText inp.text).isNone))
    (hr : ¬ jsTrim r = "") :
    sendRealtimeInput cfg s inp (BackendOutcome.ok r) =
      { result := some r,
        state := { s with
          conversationHistory :=
            appendTurn s.conversationHistory (buildParts cfg inp) r },
        backendCalled := true } := by
  unfold sendRealtimeInput
  simp only [hcl, Bool.false_eq_true, if_false, hguard, hr]

theorem lastN_of_le {α : Type} (n : Nat) (l : List α) (h : l.length ≤ n) :
    lastN n l = l := by
  unfold lastN
  have : l.length - n = 0 := by omega
  rw [this, List.drop_zero]

theorem lastN_length_of_ge {α : Type} (n : Nat) (l : List α) (h : n ≤ l.length) :
    (lastN n l).length = n := by
  unfold lastN
  rw [List.length_drop]
  omega

theorem lastN_append_singleton_of_ge {α : Type} (n : Nat) (l : List α) (a : α)
    (h : n ≤ l.length) (hn : 0 < n) :
    lastN n (l ++ [a]) = (lastN n l).drop 1 ++ [a] := by
  unfold lastN
  have h1 : l.length + 1 - n ≤ l.length := by omega
  rw [List.length_append, List.length_singleton,
    List.drop_append_of_le_length h1, List.drop_drop]
  have h2 : l.length - n + 1 = l.length + 1 - n := by omega
  rw [h2]

theorem send_len (cfg : Config) (s : SessionState) (inp : Input)
    (b : BackendOutcome) (h : s.conversationHistory.length ≤ 16) :
    (sendRealtimeInput cfg s inp b).state.conversationHistory.length ≤ 16 := by
  cases b with
  | err m =>
    unfold sendRealtimeInput
    split
    · exact h
    · split
      · exact h
      · exact h
  | ok r =>
    unfold sendRealtimeInput
    split
    · exact h
    · split
      · exact h
      · split
        · exact h
        · split
          · exact h
          · simp only [appendTurn_length]
            omega

theorem runSends_len (cfg : Config) (calls : List (Input × BackendOutcome)) :
    ∀ s0 : SessionState, s0.conversationHistory.length ≤ 16 →
      (runSends cfg s0 calls).conversationHistory.length ≤ 16 := by
  induction calls with
  | nil =>
    intro s0 h
    exact h
  | cons c cs ih =>
    intro s0 h
    unfold runSends at ih ⊢
    rw [List.foldl_cons]
    exact ih _ (send_len cfg s0 c.1 c.2 h)

theorem flatten_map_entriesOf_length (cfg : Config)
    (l : List (Input × BackendOutcome)) :
    ((l.map (entriesOf cfg)).flatten).length = 2 * l.length := by
  induction l with
  | nil => rfl
  | cons c cs ih =>
    simp only [List.map_cons, List.flatten_cons, List.length_append, ih,
      List.length_cons]
    unfold entriesOf
    simp only [List.length_cons, List.length_nil]
    omega

theorem entriesOf_no_image (cfg : Config) (c : Input × BackendOutcome)
    (hm : c.1.media = none) :
    ∀ e ∈ entriesOf cfg c, e.parts.any isImagePart = false := by
  intro e he
  unfold entriesOf at he
  rcases List.mem_cons.mp he with he | he
  · subst he
    exact buildParts_no_media_no_image cfg c.1 hm
  · rcases List.mem_cons.mp he with he | he
    · subst he
      rfl
    · exact absurd he (List.not_mem_nil e)

theorem c1_aux (cfg : Config) (calls : List (Input × BackendOutcome))
    (hcalls : ∀ c ∈ calls, textOnlyOk c = true) :
    (runSends cfg initialSession calls).isClosed = false ∧
    (∀ e ∈ (runSends cfg initialSession calls).conversationHistory,
      e.parts.any isImagePart = false) ∧
    (runSends cfg initialSession calls).conversationHistory
      = ((lastN 8 calls).map (entriesOf cfg)).flatten := by
  induction calls using List.reverseRecOn with
  | nil =>
    refine ⟨rfl, ?_, ?_⟩
    · intro e he
      exact absurd he (List.not_mem_nil e)
    · rfl
  | append_singleton l c ih =>
    have hl : ∀ x ∈ l, textOnlyOk x = true :=
      fun x hx => hcalls x (List.mem_append_left [c] hx)
    have hc : textOnlyOk c = true :=
      hcalls c (List.mem_append_right l (List.mem_singleton_self c))
    obtain ⟨hcl, hni, hhist⟩ := ih hl
    -- decompose the validity of the new call
    have hm : c.1.media = none := by
      unfold textOnlyOk at hc
      simp only [Bool.and_eq_true] at hc
      exact Option.isNone_iff_eq_none.mp hc.1.1
    have hts : (truthyText c.1.text).isSome = true := by
      unfold textOnlyOk at hc
      simp only [Bool.and_eq_true] at hc
      exact hc.1.2
    obtain ⟨r, hb, hr⟩ : ∃ r, c.2 = BackendOutcome.ok r ∧ ¬ jsTrim r = "" := by
      unfold textOnlyOk at hc
      cases hb : c.2 with
      | ok r =>
        rw [hb] at hc
        simp only [Bool.and_eq_true, decide_eq_true_eq] at hc
        exact ⟨r, rfl, hc.2⟩
      | err m =>
        rw [hb] at hc
        simp at hc
    have hguard : ¬ (c.1.media.isNone ∧ (truthyText c.1.text).isNone) := by
      intro hg
      have h2 := hg.2
      rw [Option.isNone_iff_eq_none] at h2
      rw [h2] at hts
      simp at hts
    have hstep : runSends cfg initialSession (l ++ [c])
        = (sendRealtimeInput cfg (runSends cfg initialSession l) c.1 c.2).state := by
      unfold runSends
      rw [List.foldl_append, List.foldl_cons, List.foldl_nil]
    set s := runSends cfg initialSession l with hs
    rw [hstep, hb, send_ok_step cfg s c.1 r hcl hguard hr]
    -- the freshly pushed entries carry no image data
    have hnewu : (buildParts cfg c.1).any isImagePart = false :=
      buildParts_no_media_no_image cfg c.1 hm
    have hall : ∀ e ∈ s.conversationHistory ++
        [Entry.mk Role.user (buildParts cfg c.1),
         Entry.mk Role.model [MsgPart.text r]],
        e.parts.any isImagePart = false := by
      intro e he
      rcases List.mem_append.mp he with he | he
      · exact hni e he
      · rcases List.mem_cons.mp he with he | he
        · subst he
          exact hnewu
        · rcases List.mem_cons.mp he with he | he
          · subst he
            rfl
          · exact absurd he (List.not_mem_nil e)
    have hcap : ∀ e ∈ capHistory (s.conversationHistory ++
        [Entry.mk Role.user (buildParts cfg c.1),
         Entry.mk Role.model [MsgPart.text r]]),
        e.parts.any isImagePart = false := by
      intro e he
      unfold capHistory at he
      by_cases h16 : 16 < (s.conversationHistory ++
          [Entry.mk Role.user (buildParts cfg c.1),
           Entry.mk Role.model [MsgPart.text r]]).length
      · rw [if_pos h16] at he
        exact hall e (List.mem_of_mem_drop he)
      · rw [if_neg h16] at he
        exact hall e he
    have happ : appendTurn s.conversationHistory (buildParts cfg c.1) r
        = capHistory (s.conversationHistory ++
            [Entry.mk Role.user (buildParts cfg c.1),
             Entry.mk Role.model [MsgPart.text r]]) := by
      unfold appendTurn
      exact stripOldImages_of_no_images _ hcap
    refine ⟨hcl, ?_, ?_⟩
    · intro e he
      simp only at he
      rw [happ] at he
      exact hcap e he
    · simp only
      rw [happ]
      -- now compute the cap against the last-8 characterization
      by_cases hlen : l.length ≤ 7
      · have h8 : lastN 8 l = l := lastN_of_le 8 l (by omega)
        have hsmall : (s.conversationHistory ++
            [Entry.mk Role.user (buildParts cfg c.1),
             Entry.mk Role.model [MsgPart.text r]]).length ≤ 16 := by
          rw [List.length_append, hhist, flatten_map_entriesOf_length]
          simp only [List.length_cons, List.length_nil]
          rw [h8]
          omega
        rw [capHistory_of_le _ hsmall, hhist, h8]
        have h8s : lastN 8 (l ++ [c]) = l ++ [c] := by
          apply lastN_of_le
          rw [List.length_append, List.length_singleton]
          omega
        rw [h8s, List.map_append, List.flatten_append]
        simp only [List.map_cons, List.map_nil, List.flatten_cons, List.flatten_nil,
          List.append_nil]
        unfold entriesOf
        rw [hb]
        rfl
      · have hge : 8 ≤ l.length := by omega
        have hlast8 : (lastN 8 l).length = 8 := lastN_length_of_ge 8 l hge
        obtain ⟨a, rest, hcons⟩ : ∃ a rest, lastN 8 l = a :: rest := by
          cases hl8 : lastN 8 l with
          | nil =>
            rw [hl8] at hlast8
            simp at hlast8
          | cons a rest => exact ⟨a, rest, rfl⟩
        have hbig : 16 < (s.conversationHistory ++
            [Entry.mk Role.user (buildParts cfg c.1),
             Entry.mk Role.model [MsgPart.text r]]).length := by
          rw [List.length_append, hhist, flatten_map_entriesOf_length, hlast8]
          simp only [List.length_cons, List.length_nil]
          omega
        have hlen18 : (s.conversationHistory ++
            [Entry.mk Role.user (buildParts cfg c.1),
             Entry.mk Role.model [MsgPart.text r]]).length = 18 := by
          rw [List.length_append, hhist, flatten_map_entriesOf_length, hlast8]
          rfl
        unfold capHistory
        rw [if_pos hbig, hlen18]
        have hdrop2 : (18 : Nat) - 16 = 2 := by omega
        rw [hdrop2]
        have h2le : 2 ≤ s.conversationHistory.length := by
          rw [hhist, flatten_map_entriesOf_length, hlast8]
          omega
        rw [List.drop_append_of_le_length h2le, hhist, hcons]
        simp only [List.map_cons, List.flatten_cons]
        unfold entriesOf
        simp only [List.cons_append, List.nil_append, List.drop_succ_cons,
          List.drop_zero]
        have hsnoc : lastN 8 (l ++ [c]) = rest ++ [c] := by
          rw [lastN_append_singleton_of_ge 8 l c hge (by omega), hcons]
          rfl
        rw [hsnoc, List.map_append, List.flatten_append]
        simp only [List.map_cons, List.map_nil, List.flatten_cons, List.flatten_nil,
          List.append_nil]
        rw [hb]
        rfl

/--
C1: starting from a fresh session, after any sequence of
`sendRealtimeInput` calls the conversation history holds at most 16
entries (8 turns); and for any sequence of successful text calls the
history is exactly the entries of the most recent (at most) 8 turns, in
oldest-first order — so the oldest turns are dropped first, the surviving
turns keep their relative order, and after appending 9 turns exactly the
most recent 8 remain.
-/
theorem history_cap_eight_turns (cfg : Config)
    (calls : List (Input × BackendOutcome)) :
    (runSends cfg initialSession calls).conversationHistory.length ≤ 16 ∧
    ((∀ c ∈ calls, textOnlyOk c = true) →
      (runSends cfg initialSession calls).conversationHistory
        = ((lastN 8 calls).map (entriesOf cfg)).flatten) := by
  constructor
  · exact runSends_len cfg calls initialSession (by simp [initialSession])
  · intro h
    exact (c1_aux cfg calls h).2.2

/-- A configuration for concrete evaluations: interview mode, English. -/
def cfgInterview : Config :=
  { currentMode := "interview", storedLanguageName := "English", examHint := "" }

def questionText : String := "hello"

def answerText : String := "answer"

/-- Nine successful text-only calls. -/
def nineCalls : List (Input × BackendOutcome) :=
  (List.range 9).map
    (fun _ => ({ text := some questionText, media := none },
               BackendOutcome.ok answerText))

/-- Witness for C1: after 9 appended turns, the bound holds and the history
is exactly the flattened entries of the last 8 calls. -/
theorem history_cap_eight_turns_witness :
    (runSends cfgInterview initialSession nineCalls).conversationHistory.length ≤ 16 ∧
    (runSends cfgInterview initialSession nineCalls).conversationHistory
      = ((lastN 8 nineCalls).map (entriesOf cfgInterview)).flatten :=
  ⟨(history_cap_eight_turns cfgInterview nineCalls).1,
   (history_cap_eight_turns cfgInterview nineCalls).2 (by decide)⟩

/--
C2: when the backend streaming call raises an error, `sendRealtimeInput`
returns `null` (never an exception value) and the conversation history —
in fact the whole session state — is unchanged; and an obtained response
whose text is blank is likewise dropped with a `null` return and no
history change, so the new turn is appended only on a non-empty response.
-/
theorem send_error_returns_null (cfg : Config) (s : SessionState) (inp : Input)
    (m : String) (r : String) (hr : jsTrim r = "") :
    (sendRealtimeInput cfg s inp (BackendOutcome.err m)).result = none ∧
    (sendRealtimeInput cfg s inp (BackendOutcome.err m)).state = s ∧
    (sendRealtimeInput cfg s inp (BackendOutcome.ok r)).result = none ∧
    (sendRealtimeInput cfg s inp (BackendOutcome.ok r)).state = s := by
  refine ⟨?_, ?_, ?_, ?_⟩ <;>
    · unfold sendRealtimeInput
      split
      · rfl
      · split
        · rfl
        · simp [hr]

def blankResp : String := " "

def errMsg429 : String := "429 Too Many Requests"

def plainTextInput : Input := { text := some questionText, media := none }

/-- Witness for C2 at a concrete session, input, error and blank response. -/
theorem send_error_returns_null_witness :
    (jsTrim blankResp = "") ∧
    ((sendRealtimeInput cfgInterview initialSession plainTextInput
        (BackendOutcome.err errMsg429)).result = none ∧
     (sendRealtimeInput cfgInterview initialSession plainTextInput
        (BackendOutcome.err errMsg429)).state = initialSession ∧
     (sendRealtimeInput cfgInterview initialSession plainTextInput
        (BackendOutcome.ok blankResp)).result = none ∧
     (sendRealtimeInput cfgInterview initialSession plainTextInput
        (BackendOutcome.ok blankResp)).state = initialSession) :=
  ⟨by decide,
   send_error_returns_null cfgInterview initialSession plainTextInput
     errMsg429 blankResp (by decide)⟩

/--
C3: after `close()` has been called on a session, every subsequent
`sendRealtimeInput` call returns immediately with no value, issues no
backend request, and leaves every session field unchanged.
-/
theorem closed_session_send_noop (cfg : Config) (s : SessionState) (inp : Input)
    (b : BackendOutcome) :
    sendRealtimeInput cfg (closeSession s) inp b =
      { result := none, state := closeSession s, backendCalled := false } := by
  unfold sendRealtimeInput closeSession
  simp

/--
C4: after five image-bearing user turns have been appended to a fresh
history, exactly the three most recent keep their inline image data; the
image parts of the two older ones are replaced by the `'[screenshot]'`
placeholder text, and the number and order of the turns (and of the model
responses) are unchanged.
-/
theorem stripGo_nil (count : Nat) : stripGo count [] = [] := rfl

theorem stripGo_cons_user (count : Nat) (ps : List MsgPart) (rest : List Entry)
    (hp : ps.any isImagePart = true) :
    stripGo count (Entry.mk Role.user ps :: rest)
      = (if 3 < count + 1 then Entry.mk Role.user (ps.map stripImagePart)
          else Entry.mk Role.user ps) :: stripGo (count + 1) rest := by
  rw [stripGo]
  rw [if_pos ⟨rfl, hp⟩]

theorem stripGo_cons_user_noimg (count : Nat) (ps : List MsgPart)
    (rest : List Entry) (hp : ps.any isImagePart = false) :
    stripGo count (Entry.mk Role.user ps :: rest)
      = Entry.mk Role.user ps :: stripGo count rest := by
  have hc : ¬ ((Entry.mk Role.user ps).role = Role.user ∧
      (Entry.mk Role.user ps).parts.any isImagePart) := by
    intro hcc
    have hx : ps.any isImagePart = true := hcc.2
    rw [hp] at hx
    exact absurd hx (by decide)
  rw [stripGo, if_neg hc]

theorem stripGo_cons_model (count : Nat) (ps : List MsgPart) (rest : List Entry) :
    stripGo count (Entry.mk Role.model ps :: rest)
      = Entry.mk Role.model ps :: stripGo count rest := by
  have hc : ¬ ((Entry.mk Role.model ps).role = Role.user ∧
      (Entry.mk Role.model ps).parts.any isImagePart) := by
    intro hcc
    exact Role.noConfusion hcc.1
  rw [stripGo, if_neg hc]

theorem image_retention_cap
    (p1 p2 p3 p4 p5 : List MsgPart) (r1 r2 r3 r4 r5 : String)
    (h1 : p1.any isImagePart = true) (h2 : p2.any isImagePart = true)
    (h3 : p3.any isImagePart = true) (h4 : p4.any isImagePart = true)
    (h5 : p5.any isImagePart = true) :
    [(p1, r1), (p2, r2), (p3, r3), (p4, r4), (p5, r5)].foldl
        (fun h t => appendTurn h t.1 t.2) []
      = [Entry.mk Role.user (p1.map stripImagePart),
         Entry.mk Role.model [MsgPart.text r1],
         Entry.mk Role.user (p2.map stripImagePart),
         Entry.mk Role.model [MsgPart.text r2],
         Entry.mk Role.user p3, Entry.mk Role.model [MsgPart.text r3],
         Entry.mk Role.user p4, Entry.mk Role.model [MsgPart.text r4],
         Entry.mk Role.user p5, Entry.mk Role.model [MsgPart.text r5]] := by
  simp only [List.foldl_cons, List.foldl_nil]
  simp [appendTurn, capHistory, stripOldImages, stripGo_nil, stripGo_cons_model,
    stripGo_cons_user, stripGo_cons_user_noimg, h1, h2, h3, h4, h5,
    mapStrip_any_eq_false]
  rw [stripGo_cons_user_noimg 4 (p1.map stripImagePart) [] (mapStrip_any_eq_false p1)]
  simp
  exact stripGo_nil 4

def imgMime : String := "image/jpeg"

def imgData : String := "abc123"

def imgParts : List MsgPart := [MsgPart.inlineData imgMime imgData]

def respOk : String := "ok"

/-- Witness for C4 at five concrete screenshot turns. -/
theorem image_retention_cap_witness :
    [(imgParts, respOk), (imgParts, respOk), (imgParts, respOk),
     (imgParts, respOk), (imgParts, respOk)].foldl
        (fun h t => appendTurn h t.1 t.2) []
      = [Entry.mk Role.user (imgParts.map stripImagePart),
         Entry.mk Role.model [MsgPart.text respOk],
         Entry.mk Role.user (imgParts.map stripImagePart),
         Entry.mk Role.model [MsgPart.text respOk],
         Entry.mk Role.user imgParts, Entry.mk Role.model [MsgPart.text respOk],
         Entry.mk Role.user imgParts, Entry.mk Role.model [MsgPart.text respOk],
         Entry.mk Role.user imgParts, Entry.mk Role.model [MsgPart.text respOk]] :=
  image_retention_cap imgParts imgParts imgParts imgParts imgParts
    respOk respOk respOk respOk respOk
    (by decide) (by decide) (by decide) (by decide) (by decide)

/- ======================================================================
   Section 3: Rate-limit / failure recovery controller
   Embeds `parseGeminiRateLimitError` and `scheduleGeminiRateLimitRecovery`
   of src/utils/gemini.js.  The two retry-hint regexes
   `/retryDelay[\\"\s:]+(\d+\.?\d*)s/i` and `/retry in (\d+\.?\d*)s/i`
   are rendered as explicit left-to-right scanners; the captured decimal
   number is kept exactly as a numerator/denominator pair (`parseFloat`
   idealized as exact).  The countdown timer is rendered as the list of
   status strings it publishes, one element per second.
   ====================================================================== -/

def isDigitChar (c : Char) : Bool :=
  '0' ≤ c && c ≤ '9'

/-- The character class `[\\"\s:]` of the retryDelay regex. -/
def isDelayClassChar (c : Char) : Bool :=
  c = '\\' || c = '"' || c = ':' || isJsWs c

/-- Read a leading digit run: accumulated value, number of digits read,
remaining characters. -/
def digitsVal : List Char → Nat → Nat → Nat × Nat × List Char
  | [], acc, n => (acc, n, [])
  | c :: rest, acc, n =>
    if isDigitChar c then digitsVal rest (10 * acc + (c.toNat - 48)) (n + 1)
    else (acc, n, c :: rest)

/-- Case-insensitive literal match at the head; returns the rest on
success. -/
def dropPrefixCI : List Char → List Char → Option (List Char)
  | [], hay => some hay
  | _ :: _, [] => none
  | p :: ps, h :: hs =>
    if asciiLower h = asciiLower p then dropPrefixCI ps hs else none

/-- `(\d+\.?\d*)s` (case-insensitive `s`): a digit run, an optional dot
with a further digit run, then the letter s.  Returns the captured number
as numerator/denominator. -/
def parseNumberThenS (l : List Char) : Option (Nat × Nat) :=
  let out := digitsVal l 0 0
  if out.2.1 = 0 then none
  else
    match out.2.2 with
    | '.' :: r4 =>
      let out2 := digitsVal r4 0 0
      (match out2.2.2 with
       | c :: _ =>
         if asciiLower c = 's' then
           some (out.1 * 10 ^ out2.2.1 + out2.1, 10 ^ out2.2.1)
         else none
       | [] => none)
    | c :: _ => if asciiLower c = 's' then some (out.1, 1) else none
    | [] => none

def retryDelayPat : String := "retrydelay"

/-- One anchored attempt of `/retryDelay[\\"\s:]+(\d+\.?\d*)s/i`. -/
def attemptRetryDelay (l : List Char) : Option (Nat × Nat) :=
  match dropPrefixCI retryDelayPat.toList l with
  | none => none
  | some r1 =>
    if (r1.takeWhile isDelayClassChar).length = 0 then none
    else parseNumberThenS (r1.dropWhile isDelayClassChar)

/-- The regex search: attempt the match at every position, left to right. -/
def scanRetryDelay : List Char → Option (Nat × Nat)
  | [] => none
  | c :: rest =>
    match attemptRetryDelay (c :: rest) with
    | some v => some v
    | none => scanRetryDelay rest

def retryInPat : String := "retry in "

/-- One anchored attempt of `/retry in (\d+\.?\d*)s/i`. -/
def attemptRetryIn (l : List Char) : Option (Nat × Nat) :=
  match dropPrefixCI retryInPat.toList l with
  | none => none
  | some r1 => parseNumberThenS r1

def scanRetryIn : List Char → Option (Nat × Nat)
  | [] => none
  | c :: rest =>
    match attemptRetryIn (c :: rest) with
    | some v => some v
    | none => scanRetryIn rest

def startsWithList : List Char → List Char → Bool
  | _, [] => true
  | [], _ :: _ => false
  | h :: hs, p :: ps => (h = p) && startsWithList hs ps

/-- `String.prototype.includes` on character lists. -/
def containsSub : List Char → List Char → Bool
  | [], pat => pat.isEmpty
  | h :: hs, pat => startsWithList (h :: hs) pat || containsSub hs pat

def quotaPat1 : String := "resource_exhausted"

def quotaPat2 : String := "resource has been exhausted"

def tokensPat : String := "tokens"

def tpmPat : String := "tpm"

def requestsPat : String := "requests"

def rpmPat : String := "rpm"

def rateLimitDefaultStatus : String := "Rate Limit (Gemini)"

/-- The rate-limit-type classification of `parseGeminiRateLimitError`,
applied to the lowercased message. -/
def rateLimitStatusMessage (lowerMsg : List Char) : String :=
  if containsSub lowerMsg quotaPat1.toList || containsSub lowerMsg quotaPat2.toList then
    rateLimitDefaultStatus ++ ": Quota exhausted"
  else if containsSub lowerMsg tokensPat.toList || containsSub lowerMsg tpmPat.toList then
    rateLimitDefaultStatus ++ ": Tokens exceeded"
  else if containsSub lowerMsg requestsPat.toList || containsSub lowerMsg rpmPat.toList then
    rateLimitDefaultStatus ++ ": Requests exceeded"
  else
    rateLimitDefaultStatus

/-- Ceiling division on naturals. -/
def ceilDiv (a b : Nat) : Nat := (a + b - 1) / b

/-- `Math.ceil((retrySec + 2) * 1000)` for `retrySec = num / den`:
the extracted retry hint plus the fixed 2-second safety margin, in
milliseconds. -/
def recoveryMsOfHint (num den : Nat) : Nat :=
  ceilDiv ((num + 2 * den) * 1000) den

/-- `parseGeminiRateLimitError(errorMessage)`: extract the retry hint
(retryDelay pattern first, then the retry-in pattern, fallback 60 s) and
classify the message. -/
def parseGeminiRateLimitError (msg : String) : String × Nat :=
  let chars := msg.toList
  let recoveryMs :=
    match scanRetryDelay chars with
    | some nd => recoveryMsOfHint nd.1 nd.2
    | none =>
      match scanRetryIn chars with
      | some nd => recoveryMsOfHint nd.1 nd.2
      | none => 60 * 1000
  (rateLimitStatusMessage (chars.map asciiLower), recoveryMs)

def readyStatus : String := "Ready"

/-- The statuses published by the `setInterval` ticks of
`scheduleGeminiRateLimitRecovery` after the initial one: decrement, then
publish the remaining seconds, or `Ready` once the countdown reaches
zero. -/
def countdownTicks : Nat → String → List String
  | 0, _ => [readyStatus]
  | k + 1, msg => (msg ++ " (" ++ toString (k + 1) ++ "s)") :: countdownTicks k msg

/-- The full status sequence published by
`scheduleGeminiRateLimitRecovery(statusMessage, recoveryMs)`: the
immediately published value with `remainingSec = Math.ceil(recoveryMs /
1000)`, followed by one status per second. -/
def publishedStatuses (msg : String) (recoveryMs : Nat) : List String :=
  let remaining := ceilDiv recoveryMs 1000
  (msg ++ " (" ++ toString remaining ++ "s)") :: countdownTicks (remaining - 1) msg

def geminiMsg429 : String := "got status: 429. \"retryDelay\": \"5s\""

/--
C8: on a classified 429 message carrying a retry hint of 5 seconds, the
parser computes a 7000 ms recovery (hint plus the fixed 2-second margin)
and the recovery controller publishes exactly the statuses
`... (7s)`, `... (6s)`, ..., `... (1s)`, `Ready` — one per second, no
value skipped.
-/
theorem rate_limit_countdown_ticks :
    parseGeminiRateLimitError geminiMsg429 = (rateLimitDefaultStatus, 7000) ∧
    publishedStatuses (parseGeminiRateLimitError geminiMsg429).1
        (parseGeminiRateLimitError geminiMsg429).2
      = [r"Rate Limit (Gemini) (7s)", r"Rate Limit (Gemini) (6s)",
         r"Rate Limit (Gemini) (5s)", r"Rate Limit (Gemini) (4s)",
         r"Rate Limit (Gemini) (3s)", r"Rate Limit (Gemini) (2s)",
         r"Rate Limit (Gemini) (1s)", r"Ready"] := by
  constructor
  · decide
  · decide

/- ======================================================================
   Section 4: Speech queue / dispatcher (renderer)
   Embeds `normalizeSpeechText`, `isLikelyQuestionText`,
   `enqueueSpeechText` and `processSpeechQueue` of the renderer source
   (src/unnamed/part_001).  The two anchored regexes of
   `isLikelyQuestionText` are rendered as word lists with an explicit
   word-boundary check; `sendTextMessage` dispatches are rendered as an
   event trace with one start/completion pair per awaited dispatch.
   ====================================================================== -/

/-- `text.replace(/\s+/g, ' ')` (ASCII range), with a flag recording
whether the previous character belonged to a whitespace run: every
maximal whitespace run becomes a single space. -/
def squeezeGo : Bool → List Char → List Char
  | _, [] => []
  | inWs, c :: rest =>
    if isJsWs c then
      if inWs then squeezeGo true rest
      else ' ' :: squeezeGo true rest
    else c :: squeezeGo false rest

def squeezeWs (l : List Char) : List Char :=
  squeezeGo false l

/-- `normalizeSpeechText(text)`: collapse whitespace runs, then trim. -/
def normalizeSpeechText (s : String) : String :=
  jsTrim (squeezeWs s.toList).asString

def isWordChar (c : Char) : Bool :=
  ('a' ≤ c && c ≤ 'z') || ('A' ≤ c && c ≤ 'Z') || isDigitChar c || c = '_'

def dropPrefixExact : List Char → List Char → Option (List Char)
  | [], hay => some hay
  | _ :: _, [] => none
  | p :: ps, h :: hs => if h = p then dropPrefixExact ps hs else none

/-- `^pat\b`: the string starts with the literal `pat` followed by a word
boundary (end of string or a non-word character). -/
def startsWithBoundary (pat hay : List Char) : Bool :=
  match dropPrefixExact pat hay with
  | none => false
  | some [] => true
  | some (c :: _) => ! isWordChar c

/-- The alternatives of `questionPattern` in `isLikelyQuestionText`. -/
def questionStartWords : List String :=
  [r"what", r"why", r"how", r"when", r"where", r"who", r"which", r"whom",
   r"is", r"are", r"am", r"do", r"does", r"did", r"have", r"has", r"had",
   r"can", r"could", r"would", r"will", r"should", r"may", r"might"]

/-- The alternatives of `promptPattern` in `isLikelyQuestionText`. -/
def promptStartPhrases : List String :=
  [r"tell me", r"explain", r"describe", r"walk me through", r"give me",
   r"difference between", r"what is", r"what are", r"how would", r"why do"]

/-- `questionPattern.test(lower) || promptPattern.test(lower)` on the
lowercased utterance. -/
def beginsWithLexicalPattern (n : String) : Bool :=
  (questionStartWords.any
      (fun w => startsWithBoundary w.toList (n.toList.map asciiLower))) ||
    (promptStartPhrases.any
      (fun w => startsWithBoundary w.toList (n.toList.map asciiLower)))

/-- `isLikelyQuestionText(text)`: normalize; empty is not a question; a
question mark anywhere makes it one (`normalized.includes('?')`);
otherwise test the two anchored lexical patterns. -/
def isLikelyQuestionText (text : String) : Bool :=
  let normalized := normalizeSpeechText text
  if normalized = "" then false
  else if normalized.toList.contains '?' then true
  else beginsWithLexicalPattern normalized

/-- `enqueueSpeechText(text)` restricted to its queue effect: normalize,
silently drop empty or non-question utterances, otherwise push the
normalized text. -/
def enqueueSpeechText (queue : List String) (text : String) : List String :=
  let normalized := normalizeSpeechText text
  if normalized = "" then queue
  else if ! isLikelyQuestionText normalized then queue
  else queue ++ [normalized]

/-- The heuristic as the claim words it: the utterance ends with a
question mark, or begins with one of the interrogative/imperative lexical
patterns of the source. -/
def claimedQuestionHeuristic (n : String) : Bool :=
  (match n.toList.getLast? with
   | some c => c = '?'
   | none => false) || beginsWithLexicalPattern n

/-- The amended heuristic: the utterance contains a question mark
anywhere, or begins with one of the lexical patterns. -/
def amendedQuestionHeuristic (n : String) : Bool :=
  n.toList.contains '?' || beginsWithLexicalPattern n

def cexUtterance : String := r"really? sure"

/--
C6 counterexample: `"really? sure"` is already normalized and non-empty,
is appended to the queue by `enqueueSpeechText` (the code tests
`includes('?')`), yet it neither ends with a question mark nor begins
with an interrogative/imperative lexical pattern — so the claimed
"appended iff ends with question mark or begins with a pattern"
equivalence is false.
-/
theorem enqueue_claimed_heuristic_counterexample :
    normalizeSpeechText cexUtterance = cexUtterance ∧
    cexUtterance ≠ "" ∧
    enqueueSpeechText [] cexUtterance = [cexUtterance] ∧
    claimedQuestionHeuristic cexUtterance = false := by
  refine ⟨by decide, by decide, by decide, by decide⟩

/--
C6 (amended): a normalized utterance is appended to the speech queue if
and only if it is non-empty and the heuristic classifies it — it contains
a question mark, or begins with an interrogative/imperative lexical
pattern; every other utterance leaves the queue unchanged.
-/
theorem enqueue_iff_amended_heuristic (q : List String) (t : String)
    (hnorm : normalizeSpeechText t = t) :
    enqueueSpeechText q t =
      if t ≠ "" ∧ amendedQuestionHeuristic t = true then q ++ [t] else q := by
  unfold enqueueSpeechText isLikelyQuestionText amendedQuestionHeuristic
  simp only [hnorm]
  by_cases ht : t = ""
  · simp [ht]
  · by_cases hq : t.toList.contains '?' <;>
      by_cases hb : beginsWithLexicalPattern t <;>
        simp [ht, hq, hb]

def witnessQuestion : String := r"what is a binary tree?"

/-- Witness for the amended C6 at the spec's own example utterance. -/
theorem enqueue_iff_amended_heuristic_witness :
    normalizeSpeechText witnessQuestion = witnessQuestion ∧
    enqueueSpeechText [] witnessQuestion =
      (if witnessQuestion ≠ "" ∧ amendedQuestionHeuristic witnessQuestion = true
       then [] ++ [witnessQuestion] else []) :=
  ⟨by decide, enqueue_iff_amended_heuristic [] witnessQuestion (by decide)⟩

/-- The renderer state read and written by the speech queue: `state.speechQueue`
and `state.processingSpeechQueue`. -/
structure SpeechState where
  speechQueue : List String
  processingSpeechQueue : Bool
deriving DecidableEq, Repr

/-- One dispatch of `sendTextMessage` is traced as a start event and a
completion event (the loop awaits the completion before continuing). -/
inductive DispatchEv where
  | start (t : String)
  | finish (t : String)
deriving DecidableEq, Repr

def isStartEv : DispatchEv → Bool
  | DispatchEv.start _ => true
  | DispatchEv.finish _ => false

def isFinishEv : DispatchEv → Bool
  | DispatchEv.start _ => false
  | DispatchEv.finish _ => true

/-- The texts dispatched, in dispatch order. -/
def startedTexts (evs : List DispatchEv) : List String :=
  evs.filterMap
    (fun e =>
      match e with
      | DispatchEv.start t => some t
      | DispatchEv.finish _ => none)

/-- The `while (state.speechQueue.length > 0)` loop body of
`processSpeechQueue`: shift the head, skip falsy (empty) entries, await
`sendTextMessage` on the rest. -/
def drainLoop : List String → List DispatchEv
  | [] => []
  | t :: rest =>
    if t = "" then drainLoop rest
    else DispatchEv.start t :: DispatchEv.finish t :: drainLoop rest

/-- `processSpeechQueue()`: a no-op while a drain is already running
(`state.processingSpeechQueue` guard); otherwise set the flag, drain the
queue to empty, dispatch the events, and clear the flag in the `finally`
block. -/
def processSpeechQueue (s : SpeechState) : SpeechState × List DispatchEv :=
  if s.processingSpeechQueue then (s, [])
  else ({ speechQueue := [], processingSpeechQueue := false },
        drainLoop s.speechQueue)

theorem drainLoop_starts (q : List String) :
    startedTexts (drainLoop q) = q.filter (fun t => ! (t = "")) := by
  induction q with
  | nil => rfl
  | cons t rest ih =>
    unfold drainLoop
    by_cases ht : t = ""
    · rw [if_pos ht, List.filter_cons]
      simp [ht, ih]
    · rw [if_neg ht, List.filter_cons]
      unfold startedTexts at ih ⊢
      simp [ht, ih, List.filterMap_cons]

theorem drainLoop_balanced (q : List String) :
    ∀ n,
      List.countP isStartEv ((drainLoop q).take n)
        ≤ List.countP isFinishEv ((drainLoop q).take n) + 1 ∧
      List.countP isFinishEv ((drainLoop q).take n)
        ≤ List.countP isStartEv ((drainLoop q).take n) := by
  induction q with
  | nil =>
    intro n
    simp [drainLoop]
  | cons t rest ih =>
    intro n
    unfold drainLoop
    by_cases ht : t = ""
    · rw [if_pos ht]
      exact ih n
    · rw [if_neg ht]
      match n with
      | 0 => simp
      | 1 => simp [isStartEv, isFinishEv]
      | Nat.succ (Nat.succ m) =>
        have hm := ih m
        simp only [List.take_succ_cons, List.countP_cons, isStartEv, isFinishEv]
        simp only [if_true, if_false]
        omega

/--
C7: the speech-queue drain is idempotent — invoked while the
`processingSpeechQueue` flag is set it is a no-op — and an actual drain
empties the queue, dispatches exactly the queued (non-empty) texts in
strict FIFO order, and awaits each dispatch before starting the next: in
every prefix of the dispatch trace the number of started requests exceeds
the number of completed ones by at most one, so at most one outbound
request from the speech path is in flight at any time.
-/
theorem speech_drain_idempotent_fifo (s : SpeechState) :
    (s.processingSpeechQueue = true → processSpeechQueue s = (s, [])) ∧
    (s.processingSpeechQueue = false →
      (processSpeechQueue s).1.speechQueue = [] ∧
      startedTexts (processSpeechQueue s).2
        = s.speechQueue.filter (fun t => ! (t = "")) ∧
      ∀ n,
        List.countP isStartEv ((processSpeechQueue s).2.take n)
          ≤ List.countP isFinishEv ((processSpeechQueue s).2.take n) + 1 ∧
        List.countP isFinishEv ((processSpeechQueue s).2.take n)
          ≤ List.countP isStartEv ((processSpeechQueue s).2.take n)) := by
  constructor
  · intro h
    unfold processSpeechQueue
    rw [if_pos h]
  · intro h
    unfold processSpeechQueue
    rw [if_neg (by simp [h])]
    exact ⟨rfl, drainLoop_starts s.speechQueue, drainLoop_balanced s.speechQueue⟩

def busySpeechState : SpeechState :=
  { speechQueue := [witnessQuestion], processingSpeechQueue := true }

def idleSpeechState : SpeechState :=
  { speechQueue := [witnessQuestion, cexUtterance], processingSpeechQueue := false }

/-- Witness for C7: a running drain makes the call a no-op; an actual
drain empties a concrete queue and dispatches its texts in order. -/
theorem speech_drain_idempotent_fifo_witness :
    processSpeechQueue busySpeechState = (busySpeechState, []) ∧
    (processSpeechQueue idleSpeechState).1.speechQueue = [] ∧
    startedTexts (processSpeechQueue idleSpeechState).2
      = idleSpeechState.speechQueue.filter (fun t => ! (t = "")) :=
  ⟨(speech_drain_idempotent_fifo busySpeechState).1 rfl,
   ((speech_drain_idempotent_fifo idleSpeechState).2 rfl).1,
   ((speech_drain_idempotent_fifo idleSpeechState).2 rfl).2.1⟩

/- ======================================================================
   Section 5: PCM ↔ float conversion
   Embeds `convertPCMBufferToFloat32` and `convertFloat32ToPCMBuffer` of
   src/utils/gemini.js.  Samples are integers, float32 values are
   idealized as exact rationals; the round-trip theorem is stated robustly
   against any per-sample perturbation of magnitude at most 2⁻²² — far
   larger than the worst-case float32 rounding error for values in
   [-1, 1] (half an ulp, at most 2⁻²⁵) — so the conclusion covers the
   actual single-precision computation.
   ====================================================================== -/

/-- One sample of `convertPCMBufferToFloat32`:
`int16Sample / (int16Sample < 0 ? 32768 : 32767)`. -/
def int16ToFloat (s : Int) : ℚ :=
  if s < 0 then (s : ℚ) / 32768 else (s : ℚ) / 32767

/-- `Math.max(-1, Math.min(1, sample))`. -/
def clampUnit (x : ℚ) : ℚ :=
  max (-1) (min 1 x)

/-- `Math.round`: round half toward positive infinity. -/
def jsRound (q : ℚ) : Int :=
  ⌊q + 1 / 2⌋

/-- One sample of `convertFloat32ToPCMBuffer`: clamp to [-1, 1], scale by
32768 for negatives and 32767 otherwise, then `Math.round`. -/
def floatToInt16 (x : ℚ) : Int :=
  let c := clampUnit x
  jsRound (if c < 0 then c * 32768 else c * 32767)

theorem roundtrip_sample (s : Int) (hlo : -32768 ≤ s) (hhi : s ≤ 32767)
    (x : ℚ) (hx : |x - int16ToFloat s| ≤ 1 / 4194304) :
    floatToInt16 x = s := by
  have hx1 : x - int16ToFloat s ≤ 1 / 4194304 := (abs_le.mp hx).2
  have hx2 : -(1 / 4194304) ≤ x - int16ToFloat s := (abs_le.mp hx).1
  unfold floatToInt16 clampUnit jsRound
  by_cases hneg : s < 0
  · -- negative sample: reverse scaling by 32768
    have he : int16ToFloat s = (s : ℚ) / 32768 := by
      unfold int16ToFloat
      rw [if_pos hneg]
    rw [he] at hx1 hx2
    have hsle : (s : ℚ) ≤ -1 := by exact_mod_cast (by omega : s ≤ -1)
    have hsge : (-32768 : ℚ) ≤ (s : ℚ) := by exact_mod_cast hlo
    have hxneg : x < 0 := by linarith
    by_cases hclamp : x < -1
    · -- clamped to -1: only s = -32768 can put x below -1
      have hs1 : (s : ℚ) < -32767 := by linarith
      have hs2 : s < -32767 := by exact_mod_cast hs1
      have hs32 : s = -32768 := by omega
      have hmin : min 1 x = x := min_eq_right (by linarith)
      have hmax : max (-1 : ℚ) x = -1 := max_eq_left (by linarith)
      rw [hmin, hmax, hs32]
      dsimp only
      rw [if_pos (by norm_num : (-1 : ℚ) < 0)]
      rw [show (-1 : ℚ) * 32768 = -32768 by norm_num]
      rw [Int.floor_eq_iff]
      constructor
      · push_cast
        linarith
      · push_cast
        linarith
    · have hmin : min 1 x = x := min_eq_right (by linarith)
      have hmax : max (-1 : ℚ) x = x := max_eq_right (by linarith)
      rw [hmin, hmax]
      dsimp only
      rw [if_pos hxneg]
      rw [Int.floor_eq_iff]
      constructor
      · linarith
      · linarith
  · -- non-negative sample: reverse scaling by 32767
    have hsge : (0 : ℚ) ≤ (s : ℚ) := by exact_mod_cast (by omega : 0 ≤ s)
    have hsle : (s : ℚ) ≤ 32767 := by exact_mod_cast hhi
    have he : int16ToFloat s = (s : ℚ) / 32767 := by
      unfold int16ToFloat
      rw [if_neg hneg]
    rw [he] at hx1 hx2
    by_cases hclamp : 1 < x
    · -- clamped to 1: only s = 32767 can put x above 1
      have hs1 : (32766 : ℚ) < (s : ℚ) := by linarith
      have hs2 : (32766 : Int) < s := by exact_mod_cast hs1
      have hs32 : s = 32767 := by omega
      have hmin : min 1 x = 1 := min_eq_left (by linarith)
      have hmax : max (-1 : ℚ) (1 : ℚ) = 1 := max_eq_right (by norm_num)
      rw [hmin, hmax, hs32]
      dsimp only
      rw [if_neg (by norm_num : ¬ (1 : ℚ) < 0)]
      rw [show (1 : ℚ) * 32767 = 32767 by norm_num]
      rw [Int.floor_eq_iff]
      constructor
      · push_cast
        linarith
      · push_cast
        linarith
    · have hmin : min 1 x = x := min_eq_right (by linarith)
      have hmax : max (-1 : ℚ) x = x := max_eq_right (by linarith)
      rw [hmin, hmax]
      dsimp only
      by_cases hxneg : x < 0
      · -- a slightly negative float only arises from the zero sample
        have hs1 : (s : ℚ) < 1 := by linarith
        have hs2 : s < 1 := by exact_mod_cast hs1
        have hs0 : s = 0 := by omega
        rw [hs0]
        rw [if_pos hxneg]
        rw [Int.floor_eq_iff]
        constructor
        · push_cast
          linarith
        · push_cast
          linarith
      · rw [if_neg hxneg]
        rw [Int.floor_eq_iff]
        constructor
        · linarith
        · linarith

/--
C9: converting an Int16 sample buffer to float (negative samples divided
by 32768, non-negative by 32767) and converting the result back
(clamping to [-1, 1], scaling by 32768 / 32767, rounding) recovers the
original buffer exactly — within the claimed ±1 LSB tolerance the
deviation is in fact 0 — even when every stored float is perturbed by up
to 2⁻²², which covers float32 rounding of the forward conversion.
-/
theorem pcm_float_roundtrip (samples : List Int) (floats : List ℚ)
    (h : List.Forall₂
      (fun s x => -32768 ≤ s ∧ s ≤ 32767 ∧ |x - int16ToFloat s| ≤ 1 / 4194304)
      samples floats) :
    floats.map floatToInt16 = samples := by
  induction h with
  | nil => rfl
  | cons hrel _hrest ih =>
    simp only [List.map_cons, ih]
    rw [roundtrip_sample _ hrel.1 hrel.2.1 _ hrel.2.2]

/-- Witness for C9 on a concrete buffer spanning the extremes, with the
floats taken exactly. -/
theorem pcm_float_roundtrip_witness :
    ([int16ToFloat (-32768), int16ToFloat (-1), int16ToFloat 0,
      int16ToFloat 1, int16ToFloat 32767].map floatToInt16)
      = [-32768, -1, 0, 1, 32767] :=
  pcm_float_roundtrip [-32768, -1, 0, 1, 32767]
    [int16ToFloat (-32768), int16ToFloat (-1), int16ToFloat 0,
     int16ToFloat 1, int16ToFloat 32767]
    (by
      refine List.Forall₂.cons ⟨by decide, by decide, ?_⟩
        (List.Forall₂.cons ⟨by decide, by decide, ?_⟩
          (List.Forall₂.cons ⟨by decide, by decide, ?_⟩
            (List.Forall₂.cons ⟨by decide, by decide, ?_⟩
              (List.Forall₂.cons ⟨by decide, by decide, ?_⟩
                List.Forall₂.nil)))) <;>
        · rw [sub_self, abs_zero]
          norm_num)
